import Mathlib

/-!
Verification of the Bloom Nexus valence-ledger simulation
(`src/simulation_v1.py.py`): a shallow embedding of the
`InteractionPoint` record, the `ValenceLedger` hash chain
(genesis, `log_event`, `verify_integrity`) and the
`analyze_text` heuristic, together with proofs of the
documented properties.
-/

/-- Error raised by `InteractionPoint.__init__` when a bound is violated.
The Python code raises `ValueError("Invalid parameters for InteractionPoint.")`;
fallible construction is embedded as an `Except` value. -/
structure ValidationError where
  message : String
deriving DecidableEq

/-- The dictionary produced by `InteractionPoint.to_dict`: the seven keys
`timestamp`, `arousal`, `valence`, `impact_scope`, `description`,
`source_text`, `coordinates`.  The wall-clock reading `time.time()` is
embedded as an integer supplied by the environment (only its identity
matters to the ledger, never its arithmetic). -/
structure PointData where
  timestamp : Int
  arousal : Int
  valence : Int
  impact_scope : Int
  description : String
  source_text : String
  coordinates : Int × Int × Int
deriving DecidableEq

/-- A validated `InteractionPoint` object (same fields as its dict view). -/
structure InteractionPoint where
  timestamp : Int
  arousal : Int
  valence : Int
  impact_scope : Int
  description : String
  source_text : String
  coordinates : Int × Int × Int
deriving DecidableEq

/-- `InteractionPoint.__init__`: validates
`0 <= arousal <= 100 and -50 <= valence <= 50 and impact_scope >= 1`,
stores the fields, sets `timestamp = time.time()` (the reading is the
`timestamp` argument here) and `coordinates = (arousal, valence, impact_scope)`.
On violation it raises, embedded as `Except.error`. -/
def InteractionPoint.create (arousal valence impact_scope : Int)
    (description : String) (source_text : String) (timestamp : Int) :
    Except ValidationError InteractionPoint :=
  if 0 ≤ arousal ∧ arousal ≤ 100 ∧ -50 ≤ valence ∧ valence ≤ 50 ∧ 1 ≤ impact_scope then
    Except.ok { timestamp := timestamp, arousal := arousal, valence := valence,
                impact_scope := impact_scope, description := description,
                source_text := source_text,
                coordinates := (arousal, valence, impact_scope) }
  else
    Except.error { message := "Invalid parameters for InteractionPoint." }

/-- `InteractionPoint.to_dict`. -/
def InteractionPoint.to_dict (p : InteractionPoint) : PointData :=
  { timestamp := p.timestamp, arousal := p.arousal, valence := p.valence,
    impact_scope := p.impact_scope, description := p.description,
    source_text := p.source_text, coordinates := p.coordinates }

/-- A digest as produced by `ValenceLedger._hash_entry`, i.e.
`hashlib.sha256(json.dumps(entry_data, sort_keys=True).encode()).hexdigest()`.
The digest is embedded as a free constructor over the hashed content
(the canonically serialized fields), which captures exactly the
properties the ledger design relies on: the digest is a deterministic
function of the content, and distinct contents have distinct digests
(SHA-256 collision-freeness, idealized).  `sentinel` stands for the
literal string `"0"` used as the genesis `previous_hash`; no SHA-256
hex digest equals `"0"`, so it is distinct from every real digest. -/
inductive Digest where
  | sentinel : Digest
  | digest (index : Nat) (point_data : PointData) (previous_hash : Digest) : Digest
deriving DecidableEq

/-- The content of a ledger entry with its `hash` key removed
(`entry_to_verify = current.copy(); del entry_to_verify['hash']`). -/
structure EntryContent where
  index : Nat
  point_data : PointData
  previous_hash : Digest
deriving DecidableEq

/-- `ValenceLedger._hash_entry`: hash of the entry dict without its
`hash` key (see `Digest` for the modelling of SHA-256). -/
def hash_entry (entry_data : EntryContent) : Digest :=
  Digest.digest entry_data.index entry_data.point_data entry_data.previous_hash

/-- A stored ledger entry: the dict `{'index', 'point_data', 'previous_hash', 'hash'}`. -/
structure LedgerEntry where
  index : Nat
  point_data : PointData
  previous_hash : Digest
  hash : Digest
deriving DecidableEq

/-- The entry minus its `hash` field. -/
def LedgerEntry.content (e : LedgerEntry) : EntryContent :=
  { index := e.index, point_data := e.point_data, previous_hash := e.previous_hash }

/-- `ValenceLedger` state: the `self.chain` list. -/
structure ValenceLedger where
  chain : List LedgerEntry
deriving DecidableEq

/-- The genesis `InteractionPoint(0, 0, 1, "Ledger Initialized")`
(its constructor check `0 <= 0 <= 100 and -50 <= 0 <= 50 and 1 >= 1`
passes; see `genesis_create_ok`). -/
def genesis_point (timestamp : Int) : InteractionPoint :=
  { timestamp := timestamp, arousal := 0, valence := 0, impact_scope := 1,
    description := "Ledger Initialized", source_text := "",
    coordinates := (0, 0, 1) }

/-- `ValenceLedger._create_genesis_block`: the entry
`{'index': 0, 'point_data': genesis_point.to_dict(), 'previous_hash': "0"}`
with `entry['hash'] = _hash_entry(entry)`. -/
def create_genesis_block (timestamp : Int) : LedgerEntry :=
  { index := 0, point_data := (genesis_point timestamp).to_dict,
    previous_hash := Digest.sentinel,
    hash := hash_entry { index := 0,
                         point_data := (genesis_point timestamp).to_dict,
                         previous_hash := Digest.sentinel } }

/-- `ValenceLedger.__init__`: `self.chain = []` followed by
`self._create_genesis_block()`. -/
def ValenceLedger.init (timestamp : Int) : ValenceLedger :=
  { chain := [create_genesis_block timestamp] }

/-- `self.chain[-1]`, embedded as an `Option` (Python raises `IndexError`
on an empty list). -/
def lastEntry : List LedgerEntry → Option LedgerEntry
  | [] => none
  | [e] => some e
  | _ :: e :: rest => lastEntry (e :: rest)

/-- `ValenceLedger.log_event`: reads `self.chain[-1]['hash']`, builds
`{'index': len(self.chain), 'point_data': point.to_dict(), 'previous_hash': previous_hash}`,
sets its `hash` via `_hash_entry`, appends it and returns it. -/
def log_event (L : ValenceLedger) (point : InteractionPoint) :
    Option (ValenceLedger × LedgerEntry) :=
  match lastEntry L.chain with
  | none => none
  | some last =>
    let new_entry : LedgerEntry :=
      { index := L.chain.length, point_data := point.to_dict,
        previous_hash := last.hash,
        hash := hash_entry { index := L.chain.length,
                             point_data := point.to_dict,
                             previous_hash := last.hash } }
    some ({ chain := L.chain ++ [new_entry] }, new_entry)

/-- A sequence of `log_event` calls starting from a given ledger state. -/
def appendAll (L : ValenceLedger) : List InteractionPoint → Option ValenceLedger
  | [] => some L
  | p :: ps =>
    match log_event L p with
    | some (L', _) => appendAll L' ps
    | none => none

/-- The loop body of `ValenceLedger.verify_integrity` for
`i in range(1, len(self.chain))`: `prev` is `self.chain[i-1]`, the list
argument holds `self.chain[i:]`.  The ledger state is threaded through
unchanged (the loop only reads it); each iteration checks the chain
linkage and then the content binding, returning `False` at the first
violation. -/
def verifyFrom (L : ValenceLedger) (prev : LedgerEntry) :
    List LedgerEntry → ValenceLedger × Bool
  | [] => (L, true)
  | current :: rest =>
    if current.previous_hash ≠ prev.hash then (L, false)
    else if hash_entry current.content ≠ current.hash then (L, false)
    else verifyFrom L current rest

/-- `ValenceLedger.verify_integrity` as a state transformer: the
resulting ledger state paired with the returned boolean. -/
def verify_run (L : ValenceLedger) : ValenceLedger × Bool :=
  match L.chain with
  | [] => (L, true)
  | e :: rest => verifyFrom L e rest

/-- The boolean returned by `ValenceLedger.verify_integrity`. -/
def verify_integrity (L : ValenceLedger) : Bool :=
  (verify_run L).2

/-- External mutation of `self.chain[i]['point_data']` (the tampering of
the simulation block: `ledger.chain[1]['point_data']['description'] = ...`);
the stored `hash` and `previous_hash` fields are left untouched.
Out-of-range indices leave the state unchanged. -/
def tamperPoint (L : ValenceLedger) (i : Nat) (pd : PointData) : ValenceLedger :=
  match L.chain.get? i with
  | some e => { chain := L.chain.set i { e with point_data := pd } }
  | none => L

/-- Python `str.count(sub)`: the number of non-overlapping occurrences
of `w` in the text, scanning left to right (after a match the scan
resumes past it).  `count("")` yields `len + 1`, as in Python. -/
def countOccs (w : List Char) : List Char → Nat
  | [] => if w.isPrefixOf ([] : List Char) then 1 else 0
  | c :: rest =>
    if w.isPrefixOf (c :: rest) then 1 + countOccs w (rest.drop (w.length - 1))
    else countOccs w rest
termination_by l => l.length
decreasing_by
  · simp only [List.length_drop, List.length_cons]
    omega
  · simp only [List.length_cons]
    omega

/-- Python `sub in s`: substring containment. -/
def hasSubstr (w : List Char) : List Char → Bool
  | [] => w.isPrefixOf ([] : List Char)
  | c :: rest => w.isPrefixOf (c :: rest) || hasSubstr w rest

/-- `s.count(w)` on strings. -/
def strCount (s w : String) : Nat :=
  countOccs w.toList s.toList

/-- `w in s` on strings. -/
def strContains (s w : String) : Bool :=
  hasSubstr w.toList s.toList

/-- `analyze_text`: keyword counting over the lowercased text, linear
scoring, clamping of `valence` to `[-50, 50]` and `arousal` to
`[0, 100]`, `impact_scope = 1000` when the text mentions "everyone" or
"all users" and `1` otherwise, then `InteractionPoint` construction
with `source_text = text`.  The `timestamp` argument embeds the
`time.time()` reading taken inside the constructor. -/
def analyze_text (text : String) (timestamp : Int) :
    Except ValidationError InteractionPoint :=
  let text_lower := text.toLower
  let positive_words := ["love", "happy", "great", "good", "thanks", "help"]
  let negative_words := ["hate", "sad", "bad", "harm", "hurt", "delete"]
  let arousal_words := ["!", "now", "urgent", "emergency", "help"]
  let valence0 : Int :=
    ((positive_words.map (fun w => strCount text_lower w)).sum : Nat) * 10
  let valence1 : Int :=
    valence0 - ((negative_words.map (fun w => strCount text_lower w)).sum : Nat) * 10
  let arousal0 : Int :=
    ((arousal_words.map (fun w => strCount text_lower w)).sum : Nat) * 20 + 5
  let impact_scope : Int :=
    if strContains text_lower "everyone" || strContains text_lower "all users" then 1000
    else 1
  let valence : Int := max (-50) (min 50 valence1)
  let arousal : Int := max 0 (min 100 arousal0)
  let description := "Text analysis result for: '" ++ text.take 30 ++ "...'"
  InteractionPoint.create arousal valence impact_scope description text timestamp

/-- Spec predicate (chain linkage): `entries[i].previous_hash == entries[i-1].hash`
for every `i ≥ 1`, written with `i + 1` against `i`. -/
def chainLinked (L : ValenceLedger) : Prop :=
  ∀ i : Nat, (h : i + 1 < L.chain.length) →
    (L.chain.get ⟨i + 1, h⟩).previous_hash =
      (L.chain.get ⟨i, Nat.lt_of_succ_lt h⟩).hash

/-- Spec predicate (content binding, all entries): every stored `hash`
equals the content hash of the entry minus its `hash` field. -/
def chainBound (L : ValenceLedger) : Prop :=
  ∀ i : Nat, (h : i < L.chain.length) →
    hash_entry (L.chain.get ⟨i, h⟩).content = (L.chain.get ⟨i, h⟩).hash

/-- Spec predicate (content binding, entries `1..end` only — the range
`verify_integrity` actually re-checks). -/
def chainBoundTail (L : ValenceLedger) : Prop :=
  ∀ i : Nat, (h : i + 1 < L.chain.length) →
    hash_entry (L.chain.get ⟨i + 1, h⟩).content = (L.chain.get ⟨i + 1, h⟩).hash

/-- Spec predicate: `entries[i].index == i` for every position. -/
def indicesSequential (L : ValenceLedger) : Prop :=
  ∀ i : Nat, (h : i < L.chain.length) → (L.chain.get ⟨i, h⟩).index = i

/-- Spec predicate for `append`: the returned entry carries
`index = current_length` and is stored at the end of the chain. -/
def appendSpec (L : ValenceLedger) : Prop :=
  ∀ p L' e, log_event L p = some (L', e) →
    e.index = L.chain.length ∧ L'.chain = L.chain ++ [e]

/-- A concrete point (the "urgent" event of the end-to-end scenario). -/
def pt0 : InteractionPoint :=
  { timestamp := 0, arousal := 80, valence := -30, impact_scope := 1,
    description := "urgent", source_text := "", coordinates := (80, -30, 1) }

/-- A concrete two-entry ledger: genesis plus one appended point. -/
def demoLedger : ValenceLedger :=
  (appendAll (ValenceLedger.init 0) [pt0]).getD (ValenceLedger.init 0)

/-- A tampered point dict: `pt0`'s dict with its description rewritten. -/
def pdX : PointData :=
  { pt0.to_dict with description := "This was a happy event" }

/-- A tampered genesis dict: the genesis dict with its description rewritten. -/
def pdY : PointData :=
  { (genesis_point 0).to_dict with description := "rewritten" }

/-- Recursive form of the chain-linkage invariant: each entry of the
list references the digest of the entry before it (the head argument). -/
def linkedPairs : LedgerEntry → List LedgerEntry → Prop
  | _, [] => True
  | prev, c :: rest => c.previous_hash = prev.hash ∧ linkedPairs c rest

/-- Content binding for every entry of a list. -/
def bindingAll (l : List LedgerEntry) : Prop :=
  ∀ e ∈ l, hash_entry e.content = e.hash

/-- The entries of the list carry consecutive indices starting at `n`. -/
def indexedFrom : Nat → List LedgerEntry → Prop
  | _, [] => True
  | n, e :: rest => e.index = n ∧ indexedFrom (n + 1) rest

/-- Well-formedness of a ledger state: nonempty chain, linkage, content
binding and sequential indices.  This is the inductive invariant of
initialization followed by `log_event` calls. -/
def WFled (L : ValenceLedger) : Prop :=
  match L.chain with
  | [] => False
  | e :: rest => linkedPairs e rest ∧ bindingAll (e :: rest) ∧ indexedFrom 0 (e :: rest)

lemma verifyFrom_fst (L : ValenceLedger) (prev : LedgerEntry)
    (rest : List LedgerEntry) : (verifyFrom L prev rest).1 = L := by
  induction rest generalizing prev with
  | nil => rfl
  | cons c cs ih =>
    simp only [verifyFrom]
    split
    · rfl
    · split
      · rfl
      · exact ih c

lemma verifyFrom_snd_true_iff (L : ValenceLedger) (prev : LedgerEntry)
    (rest : List LedgerEntry) :
    (verifyFrom L prev rest).2 = true ↔ linkedPairs prev rest ∧ bindingAll rest := by
  induction rest generalizing prev with
  | nil => simp [verifyFrom, linkedPairs, bindingAll]
  | cons c cs ih =>
    simp only [verifyFrom, linkedPairs, bindingAll, List.mem_cons]
    by_cases h1 : c.previous_hash = prev.hash
    · rw [if_neg (not_not_intro h1)]
      by_cases h2 : hash_entry c.content = c.hash
      · rw [if_neg (not_not_intro h2)]
        rw [ih c]
        constructor
        · rintro ⟨hl, hb⟩
          exact ⟨⟨h1, hl⟩, fun e he => he.elim (fun hee => hee ▸ h2) (hb e)⟩
        · rintro ⟨⟨-, hl⟩, hb⟩
          exact ⟨hl, fun e he => hb e (Or.inr he)⟩
      · rw [if_pos h2]
        refine iff_of_false (by simp) ?_
        rintro ⟨-, hb⟩
        exact h2 (hb c (Or.inl rfl))
    · rw [if_pos h1]
      refine iff_of_false (by simp) ?_
      rintro ⟨⟨hc, -⟩, -⟩
      exact h1 hc

lemma verifyFrom_snd_hash_only :
    ∀ (rest : List LedgerEntry) (L₁ L₂ : ValenceLedger) (p₁ p₂ : LedgerEntry),
      p₁.hash = p₂.hash → (verifyFrom L₁ p₁ rest).2 = (verifyFrom L₂ p₂ rest).2
  | [], _, _, _, _, _ => rfl
  | c :: cs, L₁, L₂, p₁, p₂, h => by
    simp only [verifyFrom, h]
    by_cases h1 : c.previous_hash = p₂.hash
    · rw [if_neg (not_not_intro h1), if_neg (not_not_intro h1)]
      by_cases h2 : hash_entry c.content = c.hash
      · rw [if_neg (not_not_intro h2), if_neg (not_not_intro h2)]
        exact verifyFrom_snd_hash_only cs L₁ L₂ c c rfl
      · rw [if_pos h2, if_pos h2]
    · rw [if_pos h1, if_pos h1]

lemma lastEntry_concat :
    ∀ (l : List LedgerEntry) (x : LedgerEntry), lastEntry (l ++ [x]) = some x
  | [], _ => rfl
  | [_], _ => rfl
  | _ :: b :: bs, x => lastEntry_concat (b :: bs) x

lemma lastEntry_ne_nil :
    ∀ (l : List LedgerEntry), l ≠ [] → ∃ e, lastEntry l = some e
  | [], h => absurd rfl h
  | [a], _ => ⟨a, rfl⟩
  | _ :: b :: bs, _ => lastEntry_ne_nil (b :: bs) (by simp)

lemma linkedPairs_snoc :
    ∀ (prev : LedgerEntry) (rest : List LedgerEntry) (last x : LedgerEntry),
      linkedPairs prev rest → lastEntry (prev :: rest) = some last →
      x.previous_hash = last.hash → linkedPairs prev (rest ++ [x])
  | prev, [], last, x, _, hl, hx => by
    simp only [lastEntry, Option.some.injEq] at hl
    subst hl
    exact ⟨hx, trivial⟩
  | prev, c :: cs, last, x, hlp, hl, hx => by
    obtain ⟨h1, h2⟩ := hlp
    exact ⟨h1, linkedPairs_snoc c cs last x h2 hl hx⟩

lemma bindingAll_snoc (l : List LedgerEntry) (x : LedgerEntry)
    (hl : bindingAll l) (hx : hash_entry x.content = x.hash) :
    bindingAll (l ++ [x]) := by
  intro e he
  rcases List.mem_append.mp he with h | h
  · exact hl e h
  · rw [List.mem_singleton] at h
    subst h
    exact hx

lemma indexedFrom_snoc :
    ∀ (n : Nat) (l : List LedgerEntry) (x : LedgerEntry),
      indexedFrom n l → x.index = n + l.length → indexedFrom n (l ++ [x])
  | n, [], x, _, hx => ⟨by simpa using hx, trivial⟩
  | n, e :: es, x, hind, hx => by
    obtain ⟨he, hrest⟩ := hind
    refine ⟨he, indexedFrom_snoc (n + 1) es x hrest ?_⟩
    simp only [List.length_cons] at hx
    omega

lemma init_wf (ts : Int) : WFled (ValenceLedger.init ts) := by
  refine ⟨trivial, ?_, rfl, trivial⟩
  intro e he
  rw [List.mem_singleton] at he
  subst he
  rfl

lemma log_event_eq (L : ValenceLedger) (p : InteractionPoint) (last : LedgerEntry)
    (hlast : lastEntry L.chain = some last) :
    log_event L p = some
      (⟨L.chain ++ [{ index := L.chain.length, point_data := p.to_dict,
                      previous_hash := last.hash,
                      hash := hash_entry { index := L.chain.length,
                                           point_data := p.to_dict,
                                           previous_hash := last.hash } }]⟩,
       { index := L.chain.length, point_data := p.to_dict,
         previous_hash := last.hash,
         hash := hash_entry { index := L.chain.length,
                              point_data := p.to_dict,
                              previous_hash := last.hash } }) := by
  unfold log_event
  rw [hlast]

lemma log_event_wf (L : ValenceLedger) (p : InteractionPoint) (hwf : WFled L) :
    ∃ L' e, log_event L p = some (L', e) ∧ WFled L' ∧
      L'.chain = L.chain ++ [e] ∧ e.index = L.chain.length := by
  obtain ⟨chain⟩ := L
  cases chain with
  | nil => exact (hwf : False).elim
  | cons e0 rest =>
    obtain ⟨hlink, hbind, hidx⟩ := (hwf : linkedPairs e0 rest ∧ _ ∧ _)
    obtain ⟨last, hlast⟩ := lastEntry_ne_nil (e0 :: rest) (by simp)
    refine ⟨_, _, log_event_eq ⟨e0 :: rest⟩ p last hlast, ?_, rfl, rfl⟩
    show WFled ⟨e0 :: (rest ++ [_])⟩
    refine ⟨?_, ?_, ?_⟩
    · exact linkedPairs_snoc e0 rest last _ hlink hlast rfl
    · show bindingAll ((e0 :: rest) ++ [_])
      exact bindingAll_snoc (e0 :: rest) _ hbind rfl
    · show indexedFrom 0 ((e0 :: rest) ++ [_])
      exact indexedFrom_snoc 0 (e0 :: rest) _ hidx (by simp)

lemma log_event_shape (L : ValenceLedger) (p : InteractionPoint)
    (L' : ValenceLedger) (e : LedgerEntry) (h : log_event L p = some (L', e)) :
    e.index = L.chain.length ∧ L'.chain = L.chain ++ [e] := by
  rw [log_event] at h
  cases hl : lastEntry L.chain with
  | none => rw [hl] at h; exact Option.noConfusion h
  | some last =>
    rw [hl] at h
    simp only [Option.some.injEq, Prod.mk.injEq] at h
    obtain ⟨h1, h2⟩ := h
    subst h2
    exact ⟨rfl, congrArg ValenceLedger.chain h1.symm⟩

lemma appendAll_wf :
    ∀ (ps : List InteractionPoint) (L L' : ValenceLedger),
      WFled L → appendAll L ps = some L' →
      WFled L' ∧ L'.chain.length = L.chain.length + ps.length
  | [], L, L', hwf, h => by
    simp only [appendAll, Option.some.injEq] at h
    subst h
    exact ⟨hwf, by simp⟩
  | p :: ps, L, L', hwf, h => by
    obtain ⟨L₁, e, hle, hwf₁, hchain, -⟩ := log_event_wf L p hwf
    rw [appendAll, hle] at h
    obtain ⟨h1, h2⟩ := appendAll_wf ps L₁ L' hwf₁ h
    refine ⟨h1, ?_⟩
    rw [h2, hchain]
    simp only [List.length_append, List.length_cons, List.length_nil]
    omega

lemma linkedPairs_iff_get (prev : LedgerEntry) (rest : List LedgerEntry) :
    linkedPairs prev rest ↔
      ∀ i : Nat, (h : i + 1 < (prev :: rest).length) →
        ((prev :: rest).get ⟨i + 1, h⟩).previous_hash =
          ((prev :: rest).get ⟨i, Nat.lt_of_succ_lt h⟩).hash := by
  induction rest generalizing prev with
  | nil =>
    refine iff_of_true trivial ?_
    intro i h
    simp only [List.length_cons, List.length_nil] at h
    omega
  | cons c cs ih =>
    constructor
    · rintro ⟨h1, h2⟩ i h
      match i with
      | 0 => exact h1
      | j + 1 =>
        exact (ih c).mp h2 j
          (by simp only [List.length_cons] at h ⊢; omega)
    · intro H
      refine ⟨H 0 (by simp only [List.length_cons]; omega), (ih c).mpr ?_⟩
      intro j h
      exact H (j + 1) (by simp only [List.length_cons] at h ⊢; omega)

lemma bindingAll_iff_get (l : List LedgerEntry) :
    bindingAll l ↔ ∀ i : Nat, (h : i < l.length) →
      hash_entry (l.get ⟨i, h⟩).content = (l.get ⟨i, h⟩).hash := by
  constructor
  · intro hb i h
    exact hb _ (l.get_mem i h)
  · intro H e he
    obtain ⟨⟨i, h⟩, rfl⟩ := List.mem_iff_get.mp he
    exact H i h

lemma bindingAll_tail_iff_get (e : LedgerEntry) (rest : List LedgerEntry) :
    bindingAll rest ↔ ∀ i : Nat, (h : i + 1 < (e :: rest).length) →
      hash_entry ((e :: rest).get ⟨i + 1, h⟩).content =
        ((e :: rest).get ⟨i + 1, h⟩).hash := by
  rw [bindingAll_iff_get]
  constructor
  · intro H i h
    exact H i (by simp only [List.length_cons] at h; omega)
  · intro H i h
    exact H i (by simp only [List.length_cons]; omega)

lemma indexedFrom_get :
    ∀ (n : Nat) (l : List LedgerEntry), indexedFrom n l →
      ∀ i : Nat, (h : i < l.length) → (l.get ⟨i, h⟩).index = n + i
  | _, [], _, i, h => absurd h (by simp)
  | n, e :: es, hind, 0, h => by simpa using hind.1
  | n, e :: es, hind, i + 1, h => by
    have ih := indexedFrom_get (n + 1) es hind.2 i
      (by simp only [List.length_cons] at h; omega)
    show (es.get ⟨i, _⟩).index = n + (i + 1)
    omega

lemma create_ok_of_bounds (a v i : Int) (d s : String) (ts : Int)
    (h1 : 0 ≤ a) (h2 : a ≤ 100) (h3 : -50 ≤ v) (h4 : v ≤ 50) (h5 : 1 ≤ i) :
    InteractionPoint.create a v i d s ts =
      Except.ok { timestamp := ts, arousal := a, valence := v, impact_scope := i,
                  description := d, source_text := s, coordinates := (a, v, i) } := by
  rw [InteractionPoint.create, if_pos ⟨h1, h2, h3, h4, h5⟩]

/-- Claim C1: `verify()` returns true if and only if every entry `i` from
1 to the end passes both the chain-linkage check
(`entries[i].previous_hash == entries[i-1].hash`) and the content-binding
check (recomputing the content hash of entry `i` with its `hash` field
removed equals the stored hash); the embedding is a total function, so the
call cannot throw, and the loop stops at the first violation by
construction of `verifyFrom`. -/
theorem claim_C1 (L : ValenceLedger) :
    verify_integrity L = true ↔ chainLinked L ∧ chainBoundTail L := by
  obtain ⟨chain⟩ := L
  cases chain with
  | nil =>
    refine iff_of_true rfl ⟨?_, ?_⟩ <;>
      · intro i h
        simp only [List.length_nil] at h
        omega
  | cons e rest =>
    rw [show verify_integrity ⟨e :: rest⟩ =
          (verifyFrom ⟨e :: rest⟩ e rest).2 from rfl,
        verifyFrom_snd_true_iff]
    exact and_congr (linkedPairs_iff_get e rest) (bindingAll_tail_iff_get e rest)

/-- Claim C3: every ledger state reachable by initialization followed by
any sequence of `log_event` calls satisfies the chain-linkage invariant
and the content-binding invariant (the latter for every entry, the
genesis entry included). -/
theorem claim_C3 (ts : Int) (ps : List InteractionPoint) (L : ValenceLedger)
    (happ : appendAll (ValenceLedger.init ts) ps = some L) :
    chainLinked L ∧ chainBound L := by
  obtain ⟨hwf, -⟩ := appendAll_wf ps (ValenceLedger.init ts) L (init_wf ts) happ
  obtain ⟨chain⟩ := L
  cases chain with
  | nil => exact (hwf : False).elim
  | cons e rest =>
    obtain ⟨hlink, hbind, -⟩ := (hwf : linkedPairs e rest ∧ _ ∧ _)
    exact ⟨(linkedPairs_iff_get e rest).mp hlink,
           (bindingAll_iff_get (e :: rest)).mp hbind⟩

/-- Witness for claim C3 at a concrete ledger: genesis plus one append. -/
theorem claim_C3_witness : chainLinked demoLedger ∧ chainBound demoLedger :=
  claim_C3 0 [pt0] demoLedger rfl

/-- Claim C4: a freshly initialized `ValenceLedger` has exactly one entry,
of index 0, whose `previous_hash` is the sentinel modelling the literal
string `"0"`, whose point is the genesis `InteractionPoint` with
`arousal = 0`, `valence = 0`, `impact_scope = 1` and description
`"Ledger Initialized"` (its construction validates successfully), and
`verify()` on the fresh ledger returns true. -/
theorem claim_C4 (ts : Int) :
    (ValenceLedger.init ts).chain.length = 1 ∧
    (ValenceLedger.init ts).chain.get? 0 = some (create_genesis_block ts) ∧
    (create_genesis_block ts).index = 0 ∧
    (create_genesis_block ts).previous_hash = Digest.sentinel ∧
    (create_genesis_block ts).point_data =
      { timestamp := ts, arousal := 0, valence := 0, impact_scope := 1,
        description := "Ledger Initialized", source_text := "",
        coordinates := (0, 0, 1) } ∧
    InteractionPoint.create 0 0 1 "Ledger Initialized" "" ts =
      Except.ok (genesis_point ts) ∧
    verify_integrity (ValenceLedger.init ts) = true :=
  ⟨rfl, rfl, rfl, rfl, rfl, rfl, rfl⟩

/-- Claim C9: `verify()` is side-effect-free on the ledger state — the
state component returned by the loop embedding equals the input state,
whatever the boolean outcome. -/
theorem claim_C9 (L : ValenceLedger) :
    (verify_run L).1 = L ∧ (verify_run L).1.chain = L.chain := by
  obtain ⟨chain⟩ := L
  cases chain with
  | nil => exact ⟨rfl, rfl⟩
  | cons e rest =>
    have h := verifyFrom_fst ⟨e :: rest⟩ e rest
    exact ⟨h, congrArg ValenceLedger.chain h⟩

/-- Claim C10: mutating the genesis entry's `point_data` (hash fields
untouched) is not detected — a `verify()` that returned true keeps
returning true on the mutated ledger, because verification starts at
index 1 and reads entry 0 only through its stored `hash`. -/
theorem claim_C10 (L : ValenceLedger) (pd : PointData)
    (hv : verify_integrity L = true) :
    verify_integrity (tamperPoint L 0 pd) = true := by
  obtain ⟨chain⟩ := L
  cases chain with
  | nil => exact hv
  | cons e0 rest =>
    rw [show tamperPoint ⟨e0 :: rest⟩ 0 pd =
          ⟨{ e0 with point_data := pd } :: rest⟩ from rfl]
    rw [show verify_integrity ⟨{ e0 with point_data := pd } :: rest⟩ =
          (verifyFrom ⟨{ e0 with point_data := pd } :: rest⟩
            { e0 with point_data := pd } rest).2 from rfl]
    rw [verifyFrom_snd_hash_only rest ⟨{ e0 with point_data := pd } :: rest⟩
          ⟨e0 :: rest⟩ { e0 with point_data := pd } e0 rfl]
    exact hv

/-- Witness for claim C10: the concrete two-entry ledger still verifies
after its genesis description is rewritten. -/
theorem claim_C10_witness :
    verify_integrity (tamperPoint demoLedger 0 pdY) = true :=
  claim_C10 demoLedger pdY (by decide)

/-- Claim C2: on a ledger built by initialization and appends with at
least two entries, replacing `entries[1].point_data` by any different
dict makes a subsequent `verify()` return false, while performing no
mutation leaves `verify()` returning true. -/
theorem claim_C2 (ts : Int) (ps : List InteractionPoint) (L : ValenceLedger)
    (pd : PointData)
    (happ : appendAll (ValenceLedger.init ts) ps = some L)
    (hlen : 2 ≤ L.chain.length)
    (hne : pd ≠ (L.chain.get ⟨1, by omega⟩).point_data) :
    verify_integrity (tamperPoint L 1 pd) = false ∧
      verify_integrity L = true := by
  obtain ⟨hwf, -⟩ := appendAll_wf ps (ValenceLedger.init ts) L (init_wf ts) happ
  obtain ⟨chain⟩ := L
  cases chain with
  | nil => simp at hlen
  | cons e0 rest0 =>
    cases rest0 with
    | nil => simp at hlen
    | cons e1 rest =>
      obtain ⟨hlink, hbind, -⟩ := (hwf : linkedPairs e0 (e1 :: rest) ∧ _ ∧ _)
      obtain ⟨h10, hlink'⟩ := hlink
      have hb1 : hash_entry e1.content = e1.hash := hbind e1 (by simp)
      have hne' : pd ≠ e1.point_data := hne
      constructor
      · rw [show tamperPoint ⟨e0 :: e1 :: rest⟩ 1 pd =
              ⟨e0 :: { e1 with point_data := pd } :: rest⟩ from rfl]
        rw [show verify_integrity ⟨e0 :: { e1 with point_data := pd } :: rest⟩ =
              (verifyFrom ⟨e0 :: { e1 with point_data := pd } :: rest⟩ e0
                ({ e1 with point_data := pd } :: rest)).2 from rfl]
        have hfail : ¬ ((verifyFrom ⟨e0 :: { e1 with point_data := pd } :: rest⟩ e0
            ({ e1 with point_data := pd } :: rest)).2 = true) := by
          rw [verifyFrom_snd_true_iff]
          rintro ⟨-, hb⟩
          have hbad := hb { e1 with point_data := pd } (by simp)
          simp only [hash_entry, LedgerEntry.content] at hbad hb1
          rw [← hb1] at hbad
          injection hbad with hbad1 hbad2 hbad3
          exact hne' hbad2
        simp only [Bool.not_eq_true] at hfail
        exact hfail
      · rw [show verify_integrity ⟨e0 :: e1 :: rest⟩ =
              (verifyFrom ⟨e0 :: e1 :: rest⟩ e0 (e1 :: rest)).2 from rfl,
            verifyFrom_snd_true_iff]
        exact ⟨⟨h10, hlink'⟩, fun e he => hbind e (List.mem_cons_of_mem _ he)⟩

/-- Witness for claim C2 at a concrete ledger: genesis plus one append,
with the appended entry's description rewritten. -/
theorem claim_C2_witness :
    verify_integrity (tamperPoint demoLedger 1 pdX) = false ∧
      verify_integrity demoLedger = true :=
  claim_C2 0 [pt0] demoLedger pdX rfl (by decide) (by decide)

/-- Claim C6: after appending `k` points to a fresh ledger the chain has
`k + 1` entries, `entries[i].index == i` at every position, and
`log_event` assigns `index = current_length` and returns exactly the
entry it stored at the end of the chain. -/
theorem claim_C6 (ts : Int) (ps : List InteractionPoint) (L : ValenceLedger)
    (happ : appendAll (ValenceLedger.init ts) ps = some L) :
    L.chain.length = ps.length + 1 ∧ indicesSequential L ∧ appendSpec L := by
  obtain ⟨hwf, hlen⟩ := appendAll_wf ps (ValenceLedger.init ts) L (init_wf ts) happ
  refine ⟨?_, ?_, ?_⟩
  · have h1 : (ValenceLedger.init ts).chain.length = 1 := rfl
    omega
  · obtain ⟨chain⟩ := L
    cases chain with
    | nil => exact (hwf : False).elim
    | cons e rest =>
      obtain ⟨-, -, hidx⟩ := (hwf : linkedPairs e rest ∧ _ ∧ _)
      intro i h
      simpa using indexedFrom_get 0 (e :: rest) hidx i h
  · intro p L' e hle
    exact log_event_shape L p L' e hle

/-- Witness for claim C6 at a concrete ledger: genesis plus one append. -/
theorem claim_C6_witness :
    demoLedger.chain.length = [pt0].length + 1 ∧
      indicesSequential demoLedger ∧ appendSpec demoLedger :=
  claim_C6 0 [pt0] demoLedger rfl

/-- Claim C5: `InteractionPoint` construction fails with a validation
error if and only if `arousal` is outside `[0, 100]`, or `valence` is
outside `[-50, 50]`, or `impact_scope < 1`; for in-range inputs it
returns the object with the given field values stored (failure yields an
`Except.error`, so no partially-constructed object is produced). -/
theorem claim_C5 (a v i : Int) (d s : String) (ts : Int) :
    ((∃ e, InteractionPoint.create a v i d s ts = Except.error e) ↔
      (a < 0 ∨ 100 < a ∨ v < -50 ∨ 50 < v ∨ i < 1)) ∧
    ((0 ≤ a ∧ a ≤ 100 ∧ -50 ≤ v ∧ v ≤ 50 ∧ 1 ≤ i) →
      InteractionPoint.create a v i d s ts =
        Except.ok { timestamp := ts, arousal := a, valence := v,
                    impact_scope := i, description := d, source_text := s,
                    coordinates := (a, v, i) }) := by
  by_cases hc : 0 ≤ a ∧ a ≤ 100 ∧ -50 ≤ v ∧ v ≤ 50 ∧ 1 ≤ i
  · rw [InteractionPoint.create, if_pos hc]
    constructor
    · constructor
      · rintro ⟨e, he⟩
        exact Except.noConfusion he
      · intro hd
        exfalso
        omega
    · intro _
      rfl
  · rw [InteractionPoint.create, if_neg hc]
    constructor
    · constructor
      · intro _
        omega
      · intro _
        exact ⟨_, rfl⟩
    · intro hcon
      exact absurd hcon hc

/-- Witness for claim C5: in-range construction at concrete values. -/
theorem claim_C5_witness :
    InteractionPoint.create 80 (-30) 1 "urgent" "" 0 =
      Except.ok { timestamp := 0, arousal := 80, valence := -30,
                  impact_scope := 1, description := "urgent",
                  source_text := "", coordinates := (80, -30, 1) } :=
  (claim_C5 80 (-30) 1 "urgent" "" 0).2 (by decide)

/-- Claim C7: every operation — point construction, ledger
initialization, append, verify — is embedded as a total function, hence
unconditionally terminating, and deterministic: two runs on equal inputs
give equal results and equal resulting states (and every run produces a
result). -/
theorem claim_C7 :
    (∀ (a v i : Int) (d s : String) (ts : Int)
        (r₁ r₂ : Except ValidationError InteractionPoint),
        InteractionPoint.create a v i d s ts = r₁ →
        InteractionPoint.create a v i d s ts = r₂ → r₁ = r₂) ∧
    (∀ (a v i : Int) (d s : String) (ts : Int),
        ∃ r, InteractionPoint.create a v i d s ts = r) ∧
    (∀ (ts : Int) (L₁ L₂ : ValenceLedger),
        ValenceLedger.init ts = L₁ → ValenceLedger.init ts = L₂ → L₁ = L₂) ∧
    (∀ ts : Int, ∃ L, ValenceLedger.init ts = L) ∧
    (∀ (L : ValenceLedger) (p : InteractionPoint)
        (r₁ r₂ : Option (ValenceLedger × LedgerEntry)),
        log_event L p = r₁ → log_event L p = r₂ → r₁ = r₂) ∧
    (∀ (L : ValenceLedger) (p : InteractionPoint), ∃ r, log_event L p = r) ∧
    (∀ (L : ValenceLedger) (s₁ s₂ : ValenceLedger × Bool),
        verify_run L = s₁ → verify_run L = s₂ → s₁ = s₂) ∧
    (∀ L : ValenceLedger, ∃ s, verify_run L = s) :=
  ⟨fun _ _ _ _ _ _ _ _ h1 h2 => h1.symm.trans h2,
   fun _ _ _ _ _ _ => ⟨_, rfl⟩,
   fun _ _ _ h1 h2 => h1.symm.trans h2,
   fun _ => ⟨_, rfl⟩,
   fun _ _ _ _ h1 h2 => h1.symm.trans h2,
   fun _ _ => ⟨_, rfl⟩,
   fun _ _ _ h1 h2 => h1.symm.trans h2,
   fun _ => ⟨_, rfl⟩⟩

/-- Witness for claim C7: determinism of construction at concrete inputs. -/
theorem claim_C7_witness :
    InteractionPoint.create 0 0 1 "" "" 0 =
      Except.ok { timestamp := 0, arousal := 0, valence := 0,
                  impact_scope := 1, description := "", source_text := "",
                  coordinates := (0, 0, 1) } :=
  claim_C7.1 0 0 1 "" "" 0 _ _ rfl rfl

/-- Claim C8: for every input text, `analyze_text` returns an
`InteractionPoint` within the validation bounds — arousal in `[0, 100]`,
valence in `[-50, 50]`, `impact_scope ≥ 1` — and never raises a
validation error (the clamping guarantees the constructor check passes). -/
theorem claim_C8 (text : String) (ts : Int) :
    ∃ p, analyze_text text ts = Except.ok p ∧
      0 ≤ p.arousal ∧ p.arousal ≤ 100 ∧
      -50 ≤ p.valence ∧ p.valence ≤ 50 ∧ 1 ≤ p.impact_scope := by
  have himp : (1 : Int) ≤
      (if strContains text.toLower "everyone" ||
          strContains text.toLower "all users" then (1000 : Int) else 1) := by
    split <;> omega
  simp only [analyze_text]
  refine ⟨_, create_ok_of_bounds _ _ _ _ _ _ ?_ ?_ ?_ ?_ himp,
          ?_, ?_, ?_, ?_, himp⟩ <;> (dsimp only; omega)
